import Mathlib

/-!
Verification development for the variable-dependency extraction engine of the
go-template-live WASM module (plify-pandora repository).

The development shallowly embeds, in Lean, the Go sources that implement the
extraction core:

* `template_parser.go` / the registry types file — `maxDepth`, `VariableInfo`,
  `FunctionDefinition`, `FunctionRegistry`;
* `matcher.go` — `DefaultFunctionMatcher`, `RegistryFunctionMatcher`,
  `CompositeFunctionMatcher` and their `MatchCustomFunc` methods;
* `parser.go` — the matcher-driven tree walker: `getFieldFromNode`,
  `getFieldFromNodeWithDefaults`, `processIfAndWithAndRange`,
  `parseCustomFunc`, `parseCustomFuncWithDefaults`, `ExtractVariables`,
  `ExtractVariablesWithDefaults`;
* the shared argument-extraction helpers `extractArgVariable` and
  `extractArgVariableWithDefaults` together with the per-function registrations
  of `functions_custom.go` / `functions_confd.go` (registry-driven extraction).

Machine integers do not overflow in this code path (depth counters stay below
41), so `Nat`/`Int` are used directly.  Fallible Go functions returning
`(T, error)` are embedded as `Except String T`, the `String` being the error
message the Go code builds with `errors.New`.
-/

namespace Plify

/-- Constant `const maxDepth = 40` (template_parser.go / the shared types file). -/
def maxDepth : Nat := 40

/-- Structure `VariableInfo` — one discovered dependency.  In Go, `DefaultValue` is a
plain `string` whose zero value `""` denotes an absent default
(`json:"defaultValue,omitempty"`). -/
structure VariableInfo where
  name : String
  defaultValue : String := ""
deriving Repr, DecidableEq

/-- The AST node kinds of `text/template/parse` that the walker in `parser.go`
distinguishes.  `command` keeps the Go parser's invariant that `Args` is
non-empty by separating the first argument from the rest.  `ifNode`,
`rangeNode` and `withNode` carry a pipe, a body list and an optional else
list, exactly like `parse.IfNode` / `parse.RangeNode` / `parse.WithNode`
(whose `ElseList` may be nil). -/
inductive Node where
  | text (s : String)                                  -- parse.TextNode
  | field (ident : List String)                        -- parse.FieldNode
  | identifier (name : String)                         -- parse.IdentifierNode
  | str (s : String)                                   -- parse.StringNode
  | boolLit (b : Bool)                                 -- parse.BoolNode
  | nilLit                                             -- parse.NilNode
  | number (text : String)                             -- parse.NumberNode
  | dot                                                -- parse.DotNode
  | var (ident : List String)                          -- parse.VariableNode
  | command (first : Node) (rest : List Node)          -- parse.CommandNode (Args)
  | pipe (cmds : List Node)                            -- parse.PipeNode (Cmds)
  | list (nodes : List Node)                           -- parse.ListNode (Nodes)
  | action (pipe : Node)                               -- parse.ActionNode (Pipe)
  | ifNode (pipe : Node) (list : Node) (elseList : Option Node)     -- parse.IfNode
  | rangeNode (pipe : Node) (list : Node) (elseList : Option Node)  -- parse.RangeNode
  | withNode (pipe : Node) (list : Node) (elseList : Option Node)   -- parse.WithNode

/-- Extraction rule registered for a function's names-only extractor.  Every
`Extractor` actually registered in `functions_custom.go` /
`functions_confd.go` is either `extractArgVariable args cycle argIndex
treatStringLiteralsAsVarNames` (via the `extractStringArgVariable` /
`extractFirstArgVariable` / `extractSingleStringArgVariable` wrappers) or
`extractNoVariables`; this datatype defunctionalizes that closed set. -/
inductive NamesExtractor where
  | argVariable (argIndex : Nat) (treatStringLiteralsAsVarNames : Bool)
  | noVariables
deriving Repr, DecidableEq

/-- Extraction rule registered for a function's with-defaults extractor.
Every registered `ExtractorWithDefaults` is `extractArgVariableWithDefaults
args cycle argIndex defaultArgIndex treatStringLiteralsAsVarNames` (with
`defaultArgIndex = -1` meaning "no default position", as in the Go source) or
`extractNoVariablesInfo`. -/
inductive DefaultsExtractor where
  | argVariable (argIndex : Nat) (defaultArgIndex : Int)
      (treatStringLiteralsAsVarNames : Bool)
  | noVariables
deriving Repr, DecidableEq

/-- Structure `FunctionDefinition` (registry types file).  The render `Handler` is
irrelevant to extraction and omitted; the two extractor closures are
represented by their defunctionalized rules. -/
structure FunctionDefinition where
  name : String
  description : String := ""
  extractor : NamesExtractor
  extractorWithDefaults : DefaultsExtractor
deriving Repr, DecidableEq

/-- Structure `FunctionRegistry` — a name → definition mapping.  The Go map is embedded
as an association list where `RegisterFunction` prepends, so that the
first-match `lookup` realizes the map's last-write-wins overwrite. -/
structure FunctionRegistry where
  functions : List (String × FunctionDefinition)
deriving Repr, DecidableEq

/-- Constructor `NewFunctionRegistry()`. -/
def NewFunctionRegistry : FunctionRegistry := ⟨[]⟩

/-- Method `RegisterFunction` stores/overwrites the entry for `def.Name`. -/
def FunctionRegistry.RegisterFunction (r : FunctionRegistry)
    (d : FunctionDefinition) : FunctionRegistry :=
  ⟨(d.name, d) :: r.functions⟩

/-- Method `GetFunction(name) -> (def, found)`. -/
def FunctionRegistry.GetFunction (r : FunctionRegistry) (name : String) :
    Option FunctionDefinition :=
  r.functions.lookup name

/-- Method `HasFunction(name) -> bool`. -/
def FunctionRegistry.HasFunction (r : FunctionRegistry) (name : String) : Bool :=
  (r.GetFunction name).isSome

/-- The three `FunctionMatcher` implementations of `matcher.go`.
`defaultMatcher` holds the `supportedFunctions map[string]bool` as an
association list (a Go map read yields the zero value `false` for absent
keys); `registryMatcher` holds the backing registry; `compositeMatcher` holds
its sub-matchers. -/
inductive FunctionMatcher where
  | defaultMatcher (supportedFunctions : List (String × Bool))
  | registryMatcher (registry : FunctionRegistry)
  | compositeMatcher (matchers : List FunctionMatcher)

/-- Constructor `NewDefaultFunctionMatcher()` — the fixed vocabulary of matcher.go. -/
def NewDefaultFunctionMatcher : FunctionMatcher :=
  .defaultMatcher [("exists", true), ("get", true), ("getv", true), ("jsonv", true)]

/-- Constructor `NewOfficialFunctionMatcher()` — recognizes no custom functions. -/
def NewOfficialFunctionMatcher : FunctionMatcher :=
  .defaultMatcher []

mutual

/-- Method `MatchCustomFunc` for each matcher implementation:
`DefaultFunctionMatcher` reads its `map[string]bool` (absent keys give the
zero value `false`); `RegistryFunctionMatcher` checks `GetFunction`
existence; `CompositeFunctionMatcher` returns true if any sub-matcher
matches. -/
def MatchCustomFunc : FunctionMatcher → String → Bool
  | .defaultMatcher sup, funcName => ((sup.lookup funcName).getD false)
  | .registryMatcher reg, funcName => (reg.GetFunction funcName).isSome
  | .compositeMatcher ms, funcName => anyMatcherMatches ms funcName

/-- The `for _, matcher := range m.matchers` loop of
`CompositeFunctionMatcher.MatchCustomFunc`. -/
def anyMatcherMatches : List FunctionMatcher → String → Bool
  | [], _ => false
  | m :: ms, funcName => MatchCustomFunc m funcName || anyMatcherMatches ms funcName

end

/-- The error message of `errors.New` in `getFieldFromNode` when the depth
ceiling is exceeded (parser.go / template_parser.go). -/
def tooDeepMsg : String := "模板变量层级太深，检查模板是否正确"

mutual

/-- Method `(p *Parser) getFieldFromNode(node parse.Node, depth int)` from
`parser.go`: the names-only tree walk.  The Go body first executes
`depth = depth + 1` and compares against `maxDepth`; here the incremented
value `depth + 1` is passed to every recursive call, matching that
assignment. -/
def getFieldFromNode (m : FunctionMatcher) (node : Node) (depth : Nat) :
    Except String (List String) :=
  if _h : depth + 1 > maxDepth then .error tooDeepMsg
  else
    match node with
    | .field ident => .ok [String.intercalate "." ident]
    | .command firstWord rest =>
      match firstWord with
      | .identifier funcName => parseCustomFunc m funcName rest (depth + 1)
      | _ => do
        -- firstWord.Type() ≠ NodeIdentifier: recurse into every argument
        let a ← getFieldFromNode m firstWord (depth + 1)
        let b ← getFieldFromList m rest (depth + 1)
        pure (a ++ b)
    | .action pipe => getFieldFromNode m pipe (depth + 1)
    | .pipe cmds => getFieldFromList m cmds (depth + 1)
    | .list nodes => getFieldFromList m nodes (depth + 1)
    | .ifNode pipe list elseList =>
      processIfAndWithAndRange m pipe list elseList (depth + 1)
    | .rangeNode pipe list elseList =>
      processIfAndWithAndRange m pipe list elseList (depth + 1)
    | .withNode pipe list elseList =>
      processIfAndWithAndRange m pipe list elseList (depth + 1)
    | .identifier _ => .ok []
    | .text _ => .ok []
    | .dot => .ok []
    | .str _ => .ok []
    | .boolLit _ => .ok []
    | .nilLit => .ok []
    | .number _ => .ok []
    | .var _ => .ok []
termination_by (maxDepth + 1 - depth, 0, 0)


/-- The `for _, item := range nodes { ... }` accumulation loops of
`getFieldFromNode` (shared by the command, pipe and list cases). -/
def getFieldFromList (m : FunctionMatcher) (nodes : List Node) (depth : Nat) :
    Except String (List String) :=
  match nodes with
  | [] => .ok []
  | item :: rest => do
    let a ← getFieldFromNode m item depth
    let b ← getFieldFromList m rest depth
    pure (a ++ b)
termination_by (maxDepth + 1 - depth, 1, nodes.length)


/-- Helper `processIfAndWithAndRange(pipe, list, elseList, cycle)` from `parser.go`:
guard pipeline first, then the body list, then — when non-nil — the else
list. -/
def processIfAndWithAndRange (m : FunctionMatcher) (pipe list : Node)
    (elseList : Option Node) (cycle : Nat) : Except String (List String) := do
  let a ← getFieldFromNode m pipe cycle
  let b ← getFieldFromNode m list cycle
  match elseList with
  | none => pure (a ++ b)
  | some el => do
    let c ← getFieldFromNode m el cycle
    pure (a ++ b ++ c)
termination_by (maxDepth + 1 - cycle, 1, 0)


/-- Helper `parseCustomFunc(args, cycle)` from `parser.go` (lines 287–316): the
identifier at `args[0]` has already been matched; `funcName` is its `Ident`
and `rest` is `args[1:]`.  When the matcher recognizes the function, only
`args[1]` is examined — a literal string becomes the dependency name, any
other node is recursed into; with no second argument nothing is contributed.
Otherwise every argument is recursed into (the leading `IdentifierNode`
contributes nothing in `getFieldFromNode`). -/
def parseCustomFunc (m : FunctionMatcher) (funcName : String)
    (rest : List Node) (cycle : Nat) : Except String (List String) :=
  if MatchCustomFunc m funcName then
    match rest with
    | [] => .ok []
    | item :: _ =>
      match item with
      | .str s => .ok [s]
      | _ => getFieldFromNode m item cycle
  else do
    let a ← getFieldFromNode m (.identifier funcName) cycle
    let b ← getFieldFromList m rest cycle
    pure (a ++ b)
termination_by (maxDepth + 1 - cycle, 2, 0)


end

/-- Helper `parseCustomFuncWithDefaults(args, cycle)` from `parser.go`
(lines 319–359).  Identical branching to `parseCustomFunc`, except that the
matched-literal branch builds a `VariableInfo` and attaches `args[2]` as
`DefaultValue` when it is present and a literal string, and that both
recursive branches delegate to the *plain* `getFieldFromNode` and wrap each
found name into a `VariableInfo` with no default. -/
def parseCustomFuncWithDefaults (m : FunctionMatcher) (funcName : String)
    (rest : List Node) (cycle : Nat) : Except String (List VariableInfo) :=
  if MatchCustomFunc m funcName then
    match rest with
    | [] => .ok []
    | item :: rest2 =>
      match item with
      | .str s =>
        -- len(args) > 2 && args[2].Type() == parse.NodeString
        let varInfo : VariableInfo :=
          match rest2 with
          | .str dv :: _ => { name := s, defaultValue := dv }
          | _ => { name := s }
        .ok [varInfo]
      | _ => do
        let names ← getFieldFromNode m item cycle
        pure (names.map fun n => { name := n })
  else do
    let a ← getFieldFromNode m (.identifier funcName) cycle
    let b ← getFieldFromList m rest cycle
    pure ((a ++ b).map fun n => ({ name := n } : VariableInfo))

mutual

/-- Method `(p *Parser) getFieldFromNodeWithDefaults(node parse.Node, depth int)`
from `parser.go`: same traversal as `getFieldFromNode`, producing
`VariableInfo` entries. -/
def getFieldFromNodeWithDefaults (m : FunctionMatcher) (node : Node)
    (depth : Nat) : Except String (List VariableInfo) :=
  if _h : depth + 1 > maxDepth then .error tooDeepMsg
  else
    match node with
    | .field ident => .ok [{ name := String.intercalate "." ident }]
    | .command firstWord rest =>
      match firstWord with
      | .identifier funcName =>
        parseCustomFuncWithDefaults m funcName rest (depth + 1)
      | _ => do
        let a ← getFieldFromNodeWithDefaults m firstWord (depth + 1)
        let b ← getFieldFromListWithDefaults m rest (depth + 1)
        pure (a ++ b)
    | .action pipe => getFieldFromNodeWithDefaults m pipe (depth + 1)
    | .pipe cmds => getFieldFromListWithDefaults m cmds (depth + 1)
    | .list nodes => getFieldFromListWithDefaults m nodes (depth + 1)
    | .ifNode pipe list elseList =>
      processIfAndWithAndRangeWithDefaults m pipe list elseList (depth + 1)
    | .rangeNode pipe list elseList =>
      processIfAndWithAndRangeWithDefaults m pipe list elseList (depth + 1)
    | .withNode pipe list elseList =>
      processIfAndWithAndRangeWithDefaults m pipe list elseList (depth + 1)
    | .identifier _ => .ok []
    | .text _ => .ok []
    | .dot => .ok []
    | .str _ => .ok []
    | .boolLit _ => .ok []
    | .nilLit => .ok []
    | .number _ => .ok []
    | .var _ => .ok []
termination_by (maxDepth + 1 - depth, 0)

/-- The accumulation loops of `getFieldFromNodeWithDefaults`. -/
def getFieldFromListWithDefaults (m : FunctionMatcher) (nodes : List Node)
    (depth : Nat) : Except String (List VariableInfo) :=
  match nodes with
  | [] => .ok []
  | item :: rest => do
    let a ← getFieldFromNodeWithDefaults m item depth
    let b ← getFieldFromListWithDefaults m rest depth
    pure (a ++ b)
termination_by (maxDepth + 1 - depth, 1 + nodes.length)

/-- Helper `processIfAndWithAndRangeWithDefaults(pipe, list, elseList, cycle)` from
`parser.go`. -/
def processIfAndWithAndRangeWithDefaults (m : FunctionMatcher)
    (pipe list : Node) (elseList : Option Node) (cycle : Nat) :
    Except String (List VariableInfo) := do
  let a ← getFieldFromNodeWithDefaults m pipe cycle
  let b ← getFieldFromNodeWithDefaults m list cycle
  match elseList with
  | none => pure (a ++ b)
  | some el => do
    let c ← getFieldFromNodeWithDefaults m el cycle
    pure (a ++ b ++ c)
termination_by (maxDepth + 1 - cycle, 1)

end

/-- The error wrapping `fmt.Errorf("解析模板文件 %s 存在异常: %v", fileName, err)`
performed by `ExtractVariables` / `ExtractVariablesWithDefaults`. -/
def wrapParseError (fileName e : String) : String :=
  "解析模板文件 " ++ fileName ++ " 存在异常: " ++ e

/-- Method `(p *Parser) ExtractVariables(fileName, fileContent)` from `parser.go`,
taking the already-parsed template tree (`tmpl.Tree.Root`); the upstream
`text/template` parse step is the excluded external collaborator. -/
def ExtractVariables (m : FunctionMatcher) (fileName : String) (root : Node) :
    Except String (List String) :=
  match getFieldFromNode m root 0 with
  | .error e => .error (wrapParseError fileName e)
  | .ok result => .ok result

/-- Method `(p *Parser) ExtractVariablesWithDefaults(fileName, fileContent)` from
`parser.go`, on the parsed template tree. -/
def ExtractVariablesWithDefaults (m : FunctionMatcher) (fileName : String)
    (root : Node) : Except String (List VariableInfo) :=
  match getFieldFromNodeWithDefaults m root 0 with
  | .error e => .error (wrapParseError fileName e)
  | .ok result => .ok result

/-!
The registry-driven parser generation

The repository's current parser is constructed with `NewParser(registry)`
(see `test_helpers.go` and the `NewParser(globalRegistry)` calls inside the
shared helpers file): function classification is per function, through the
`Extractor` / `ExtractorWithDefaults` rules registered in
`functions_custom.go` and `functions_confd.go`.  The shared helpers
`extractArgVariable` / `extractArgVariableWithDefaults` are in the sources;
the walker file that dispatches a recognized command to its registered rule
is not, so that dispatch step is modelled from the spec (§4.3 step 2) below.
The traversal over the remaining node kinds is byte-for-byte the one of
`parser.go` and is embedded from it.  The `Reg` namespace holds this
generation; its `reg` parameter plays the role of `globalRegistry`.
-/

namespace Reg

mutual

/-- Function `getFieldFromNode` of the registry-driven parser: traversal identical to
`parser.go`; the command-with-identifier case dispatches per registered
function (see `Reg.parseCustomFunc`). -/
def getFieldFromNode (reg : FunctionRegistry) (node : Node) (depth : Nat) :
    Except String (List String) :=
  if _h : depth + 1 > maxDepth then .error tooDeepMsg
  else
    match node with
    | .field ident => .ok [String.intercalate "." ident]
    | .command firstWord rest =>
      match firstWord with
      | .identifier funcName =>
        parseCustomFunc reg funcName (.identifier funcName :: rest) (depth + 1)
      | _ => do
        let a ← getFieldFromNode reg firstWord (depth + 1)
        let b ← getFieldFromList reg rest (depth + 1)
        pure (a ++ b)
    | .action pipe => getFieldFromNode reg pipe (depth + 1)
    | .pipe cmds => getFieldFromList reg cmds (depth + 1)
    | .list nodes => getFieldFromList reg nodes (depth + 1)
    | .ifNode pipe list elseList =>
      processIfAndWithAndRange reg pipe list elseList (depth + 1)
    | .rangeNode pipe list elseList =>
      processIfAndWithAndRange reg pipe list elseList (depth + 1)
    | .withNode pipe list elseList =>
      processIfAndWithAndRange reg pipe list elseList (depth + 1)
    | .identifier _ => .ok []
    | .text _ => .ok []
    | .dot => .ok []
    | .str _ => .ok []
    | .boolLit _ => .ok []
    | .nilLit => .ok []
    | .number _ => .ok []
    | .var _ => .ok []
termination_by (maxDepth + 1 - depth, 0, 0)

/-- The per-argument accumulation loops (identical to `parser.go`). -/
def getFieldFromList (reg : FunctionRegistry) (nodes : List Node)
    (depth : Nat) : Except String (List String) :=
  match nodes with
  | [] => .ok []
  | item :: rest => do
    let a ← getFieldFromNode reg item depth
    let b ← getFieldFromList reg rest depth
    pure (a ++ b)
termination_by (maxDepth + 1 - depth, 1, nodes.length)

/-- Helper `processIfAndWithAndRange` (identical to `parser.go`). -/
def processIfAndWithAndRange (reg : FunctionRegistry) (pipe list : Node)
    (elseList : Option Node) (cycle : Nat) : Except String (List String) := do
  let a ← getFieldFromNode reg pipe cycle
  let b ← getFieldFromNode reg list cycle
  match elseList with
  | none => pure (a ++ b)
  | some el => do
    let c ← getFieldFromNode reg el cycle
    pure (a ++ b ++ c)
termination_by (maxDepth + 1 - cycle, 1, 0)

/-- Modelled from the spec: the command dispatch of the registry-driven
walker, whose Go source file is not in the snapshot (only its callers —
`test_helpers.go`, the shared helpers file — and the registrations are).
Per §4.3 step 2 of the spec, a command whose first argument is an identifier
recognized by the registry-backed matcher is handled by that function's
registered extraction rule; an unrecognized identifier falls back to generic
recursion into every argument.  `args` is the full argument list
(`args[0]` being the identifier node, as the registered extractors expect). -/
def parseCustomFunc (reg : FunctionRegistry) (funcName : String)
    (args : List Node) (cycle : Nat) : Except String (List String) :=
  match reg.GetFunction funcName with
  | some d =>
    match d.extractor with
    | .noVariables => .ok []  -- extractNoVariables returns an empty result
    | .argVariable argIndex treatStringLiteralsAsVarNames =>
      extractArgVariable reg args cycle argIndex treatStringLiteralsAsVarNames
  | none => getFieldFromList reg args cycle
termination_by (maxDepth + 1 - cycle, 2, 0)

/-- Helper `extractArgVariable(args, cycle, argIndex, treatStringLiteralsAsVarNames)`
from the shared helpers file: a literal string at `args[argIndex]` is a
dependency name only when `treatStringLiteralsAsVarNames` is set (`json`,
`getv`, …), otherwise it is data and skipped (`base`, `toUpper`, …); a
non-literal argument is recursed into with `NewParser(globalRegistry)`'s
`getFieldFromNode`; an absent argument contributes nothing. -/
def extractArgVariable (reg : FunctionRegistry) (args : List Node)
    (cycle : Nat) (argIndex : Nat) (treatStringLiteralsAsVarNames : Bool) :
    Except String (List String) :=
  match args[argIndex]? with
  | none => .ok []
  | some item =>
    match item with
    | .str s =>
      if treatStringLiteralsAsVarNames then .ok [s] else .ok []
    | _ => getFieldFromNode reg item cycle
termination_by (maxDepth + 1 - cycle, 1, 0)

end

/-- Helper `extractArgVariableWithDefaults(args, cycle, argIndex, defaultArgIndex,
treatStringLiteralsAsVarNames)` from the shared helpers file.  In the
literal-key branch a default is attached only when `defaultArgIndex > 0`,
the argument list is long enough and that argument is itself a literal
string; the non-literal branch extracts names with the plain walker and
wraps them without defaults. -/
def extractArgVariableWithDefaults (reg : FunctionRegistry) (args : List Node)
    (cycle : Nat) (argIndex : Nat) (defaultArgIndex : Int)
    (treatStringLiteralsAsVarNames : Bool) :
    Except String (List VariableInfo) :=
  match args[argIndex]? with
  | none => .ok []
  | some item =>
    match item with
    | .str s =>
      if treatStringLiteralsAsVarNames then
        -- defaultArgIndex > 0 && len(args) > defaultArgIndex
        --   && args[defaultArgIndex].Type() == parse.NodeString
        let varInfo : VariableInfo :=
          if defaultArgIndex > 0 then
            match args[defaultArgIndex.toNat]? with
            | some (.str dv) => { name := s, defaultValue := dv }
            | _ => { name := s }
          else { name := s }
        .ok [varInfo]
      else .ok []
    | _ => do
      let names ← getFieldFromNode reg item cycle
      pure (names.map fun n => ({ name := n } : VariableInfo))

/-- Modelled from the spec: the with-defaults command dispatch of the
registry-driven walker (source file absent, as for `Reg.parseCustomFunc`);
a recognized function's `ExtractorWithDefaults` rule is applied, an
unrecognized identifier falls back to plain-name recursion into every
argument re-wrapped without defaults (§4.3 step 2). -/
def parseCustomFuncWithDefaults (reg : FunctionRegistry) (funcName : String)
    (args : List Node) (cycle : Nat) : Except String (List VariableInfo) :=
  match reg.GetFunction funcName with
  | some d =>
    match d.extractorWithDefaults with
    | .noVariables => .ok []  -- extractNoVariablesInfo returns an empty result
    | .argVariable argIndex defaultArgIndex treatStringLiteralsAsVarNames =>
      extractArgVariableWithDefaults reg args cycle argIndex defaultArgIndex
        treatStringLiteralsAsVarNames
  | none => do
    let names ← getFieldFromList reg args cycle
    pure (names.map fun n => ({ name := n } : VariableInfo))

mutual

/-- Function `getFieldFromNodeWithDefaults` of the registry-driven parser (traversal
identical to `parser.go`, dispatch per registered rule). -/
def getFieldFromNodeWithDefaults (reg : FunctionRegistry) (node : Node)
    (depth : Nat) : Except String (List VariableInfo) :=
  if _h : depth + 1 > maxDepth then .error tooDeepMsg
  else
    match node with
    | .field ident => .ok [{ name := String.intercalate "." ident }]
    | .command firstWord rest =>
      match firstWord with
      | .identifier funcName =>
        parseCustomFuncWithDefaults reg funcName (.identifier funcName :: rest)
          (depth + 1)
      | _ => do
        let a ← getFieldFromNodeWithDefaults reg firstWord (depth + 1)
        let b ← getFieldFromListWithDefaults reg rest (depth + 1)
        pure (a ++ b)
    | .action pipe => getFieldFromNodeWithDefaults reg pipe (depth + 1)
    | .pipe cmds => getFieldFromListWithDefaults reg cmds (depth + 1)
    | .list nodes => getFieldFromListWithDefaults reg nodes (depth + 1)
    | .ifNode pipe list elseList =>
      processIfAndWithAndRangeWithDefaults reg pipe list elseList (depth + 1)
    | .rangeNode pipe list elseList =>
      processIfAndWithAndRangeWithDefaults reg pipe list elseList (depth + 1)
    | .withNode pipe list elseList =>
      processIfAndWithAndRangeWithDefaults reg pipe list elseList (depth + 1)
    | .identifier _ => .ok []
    | .text _ => .ok []
    | .dot => .ok []
    | .str _ => .ok []
    | .boolLit _ => .ok []
    | .nilLit => .ok []
    | .number _ => .ok []
    | .var _ => .ok []
termination_by (maxDepth + 1 - depth, 0)

/-- The accumulation loops of `Reg.getFieldFromNodeWithDefaults`. -/
def getFieldFromListWithDefaults (reg : FunctionRegistry) (nodes : List Node)
    (depth : Nat) : Except String (List VariableInfo) :=
  match nodes with
  | [] => .ok []
  | item :: rest => do
    let a ← getFieldFromNodeWithDefaults reg item depth
    let b ← getFieldFromListWithDefaults reg rest depth
    pure (a ++ b)
termination_by (maxDepth + 1 - depth, 1 + nodes.length)

/-- Helper `processIfAndWithAndRangeWithDefaults` (identical to `parser.go`). -/
def processIfAndWithAndRangeWithDefaults (reg : FunctionRegistry)
    (pipe list : Node) (elseList : Option Node) (cycle : Nat) :
    Except String (List VariableInfo) := do
  let a ← getFieldFromNodeWithDefaults reg pipe cycle
  let b ← getFieldFromNodeWithDefaults reg list cycle
  match elseList with
  | none => pure (a ++ b)
  | some el => do
    let c ← getFieldFromNodeWithDefaults reg el cycle
    pure (a ++ b ++ c)
termination_by (maxDepth + 1 - cycle, 1)

end

/-- Function `ExtractVariables` of the registry-driven parser, on the parsed tree. -/
def ExtractVariables (reg : FunctionRegistry) (fileName : String)
    (root : Node) : Except String (List String) :=
  match getFieldFromNode reg root 0 with
  | .error e => .error (wrapParseError fileName e)
  | .ok result => .ok result

/-- Function `ExtractVariablesWithDefaults` of the registry-driven parser. -/
def ExtractVariablesWithDefaults (reg : FunctionRegistry) (fileName : String)
    (root : Node) : Except String (List VariableInfo) :=
  match getFieldFromNodeWithDefaults reg root 0 with
  | .error e => .error (wrapParseError fileName e)
  | .ok result => .ok result

end Reg

/-!
The registered build-variant vocabularies

Concrete registries, registration for registration in source order, from
`functions_custom.go` (the "custom" build) and `functions_confd.go` (the
"confd" build).
-/

/-- Registration of `getv`: `extractGetvVariables` =
`extractStringArgVariable(args, cycle, 1)` and
`extractGetvVariablesWithDefaults` =
`extractStringArgVariableWithDefaults(args, cycle, 1, 2)`. -/
def getvDefinition : FunctionDefinition :=
  { name := "getv"
    extractor := .argVariable 1 true
    extractorWithDefaults := .argVariable 1 2 true }

/-- A registration using `extractKeyArgVariable` / `extractKeyArgVariableInfo`
(= `extractArgVariable(args, cycle, 1, true)` /
`extractArgVariableWithDefaults(args, cycle, 1, -1, true)`): accessor-style,
no default position.  Used by `exists`, `get`, `json`, `jsonArray` in
`functions_custom.go` and (as `extractSingleStringArgVariable` /
`...Info`) by `json`, `jsonArray` in `functions_confd.go`. -/
def keyArgDefinition (name : String) : FunctionDefinition :=
  { name := name
    extractor := .argVariable 1 true
    extractorWithDefaults := .argVariable 1 (-1) true }

/-- A registration using `extractFirstArgVariable` /
`extractFirstArgVariableInfo` (= `extractArgVariable(args, cycle, 1, false)` /
`extractArgVariableWithDefaults(args, cycle, 1, -1, false)`): transform-style,
literal strings are data. -/
def firstArgDefinition (name : String) : FunctionDefinition :=
  { name := name
    extractor := .argVariable 1 false
    extractorWithDefaults := .argVariable 1 (-1) false }

/-- A registration using `extractNoVariables` / `extractNoVariablesInfo`. -/
def noVariablesDefinition (name : String) : FunctionDefinition :=
  { name := name
    extractor := .noVariables
    extractorWithDefaults := .noVariables }

/-- Registry built by `registerCustomFunctions()` from `functions_custom.go`: `getv`, `exists`,
`get`, `json`, `jsonArray`. -/
def customRegistry : FunctionRegistry :=
  ((((NewFunctionRegistry.RegisterFunction
      getvDefinition).RegisterFunction
      (keyArgDefinition "exists")).RegisterFunction
      (keyArgDefinition "get")).RegisterFunction
      (keyArgDefinition "json")).RegisterFunction
      (keyArgDefinition "jsonArray")

/-- Registry built by `registerConfdFunctions()` from `functions_confd.go`, in source order. -/
def confdRegistry : FunctionRegistry :=
  [firstArgDefinition "base",
   firstArgDefinition "split",
   keyArgDefinition "json",
   keyArgDefinition "jsonArray",
   firstArgDefinition "dir",
   noVariablesDefinition "map",
   noVariablesDefinition "join",
   noVariablesDefinition "datetime",
   firstArgDefinition "toUpper",
   firstArgDefinition "toLower",
   firstArgDefinition "replace",
   firstArgDefinition "contains",
   firstArgDefinition "base64Encode",
   firstArgDefinition "base64Decode",
   firstArgDefinition "trimSuffix",
   firstArgDefinition "parseBool",
   noVariablesDefinition "reverse",
   firstArgDefinition "add",
   firstArgDefinition "sub",
   firstArgDefinition "div",
   firstArgDefinition "mod",
   firstArgDefinition "mul",
   firstArgDefinition "seq",
   noVariablesDefinition "atoi"].foldl
    FunctionRegistry.RegisterFunction NewFunctionRegistry

/-!
Render-time `getv`

`getvFunc` (functions.go), `getvRenderHandler` (functions_custom.go) and
`FunctionHandler.getvFunc` (template_parser.go) have identical bodies; they
are embedded once.  The value environment is `map[string]interface{}`; the
code probes a value only with the `val.(string)` type assertion, so values
are embedded as either a string or a non-string. -/

/-- A value of the `map[string]interface{}` render environment: the Go code
only distinguishes strings from everything else (via `val.(string)`). -/
inductive GoValue where
  | str (s : String)
  | jsonObject (fields : List (String × String))
  | intVal (n : Int)
  | boolVal (b : Bool)
deriving Repr, DecidableEq

/-- The `val.(string)` type assertion. -/
def GoValue.asString : GoValue → Option String
  | .str s => some s
  | _ => none

/-- Function `getvFunc(variables)(key, v...)` — the shared body of the three `getv`
render implementations: return the stored value only when the key is present
and holds a non-empty string; otherwise return the first variadic default if
one was supplied, else the empty string. -/
def getvFunc (vars : List (String × GoValue)) (key : String)
    (v : List String) : String :=
  match vars.lookup key with
  | some val =>
    match val.asString with
    | some strVal =>
      if strVal ≠ "" then strVal
      else match v with
        | d :: _ => d
        | [] => ""
    | none =>
      match v with
      | d :: _ => d
      | [] => ""
  | none =>
    match v with
    | d :: _ => d
    | [] => ""

/-!
Theorems settling the claims.
-/

/-- The composite matcher's loop succeeds exactly when some sub-matcher
matches. -/
lemma anyMatcherMatches_iff (ms : List FunctionMatcher) (name : String) :
    anyMatcherMatches ms name = true ↔
      ∃ sub ∈ ms, MatchCustomFunc sub name = true := by
  induction ms with
  | nil => simp [anyMatcherMatches]
  | cons m ms ih => simp [anyMatcherMatches, Bool.or_eq_true, ih]

/-- C9: `MatchCustomFunc` is total and pure for every matcher implementation
(fixed-vocabulary, registry-backed, composite): on every input string —
including `""` and names absent from the vocabulary/registry — it returns a
boolean (never panics; the fixed-vocabulary map read yields the zero value
`false` on absent keys), and its value is a function of the matcher's state
alone, which it does not modify: the fixed matcher returns its map entry,
the registry matcher returns registry membership, and the composite matcher
returns true exactly when some sub-matcher matches. -/
theorem c9_matchCustomFunc_total_and_pure :
    (∀ m name, MatchCustomFunc m name = true ∨ MatchCustomFunc m name = false) ∧
    (∀ sup name, sup.lookup name = none →
      MatchCustomFunc (.defaultMatcher sup) name = false) ∧
    (∀ name, MatchCustomFunc NewOfficialFunctionMatcher name = false) ∧
    (∀ reg name,
      MatchCustomFunc (.registryMatcher reg) name = (reg.GetFunction name).isSome) ∧
    (∀ ms name, MatchCustomFunc (.compositeMatcher ms) name = true ↔
      ∃ sub ∈ ms, MatchCustomFunc sub name = true) := by
  refine ⟨?_, ?_, ?_, ?_, ?_⟩
  · intro m name
    cases h : MatchCustomFunc m name
    · right; rfl
    · left; rfl
  · intro sup name h
    simp [MatchCustomFunc, h]
  · intro name
    simp [NewOfficialFunctionMatcher, MatchCustomFunc]
  · intro reg name
    simp [MatchCustomFunc]
  · intro ms name
    simp [MatchCustomFunc, anyMatcherMatches_iff]

/-- Witness for C9 at concrete inputs: the empty string on a fixed
vocabulary, and a composite of the official (empty) and default matchers. -/
theorem c9_witness :
    MatchCustomFunc (.defaultMatcher [("getv", true)]) "" = false ∧
    MatchCustomFunc
      (.compositeMatcher [NewOfficialFunctionMatcher, NewDefaultFunctionMatcher])
      "getv" = true := by
  have h := c9_matchCustomFunc_total_and_pure
  constructor
  · exact h.2.1 [("getv", true)] "" (by simp)
  · refine (h.2.2.2.2 _ "getv").2 ⟨NewDefaultFunctionMatcher, by simp, ?_⟩
    simp [NewDefaultFunctionMatcher, MatchCustomFunc]
    decide

/-- C10: at render time `getv` returns the stored value only when the key is
present and holds a non-empty string; a key bound to the empty string or to
a non-string value falls back to the declared literal default (the first
variadic argument) or to `""`, exactly as an absent key does.  The same body
implements `getvFunc` (functions.go), `getvRenderHandler`
(functions_custom.go) and `FunctionHandler.getvFunc` (template_parser.go). -/
theorem c10_getv_fallback_semantics :
    ∀ (vars : List (String × GoValue)) (key : String) (v : List String),
      (∀ s, vars.lookup key = some (.str s) → s ≠ "" → getvFunc vars key v = s) ∧
      (vars.lookup key = some (.str "") → getvFunc vars key v = v.headD "") ∧
      (∀ val, vars.lookup key = some val → val.asString = none →
        getvFunc vars key v = v.headD "") ∧
      (vars.lookup key = none → getvFunc vars key v = v.headD "") := by
  intro vars key v
  refine ⟨?_, ?_, ?_, ?_⟩
  · intro s hl hs
    simp [getvFunc, hl, GoValue.asString, hs]
  · intro hl
    simp [getvFunc, hl, GoValue.asString]
    cases v <;> simp
  · intro val hl ha
    simp [getvFunc, hl, ha]
    cases v <;> simp
  · intro hl
    simp [getvFunc, hl]
    cases v <;> simp

/-- Witness for C10: a present non-empty string, a present empty string, a
present non-string value and an absent key. -/
theorem c10_witness :
    getvFunc [("k", .str "val")] "k" ["d"] = "val" ∧
    getvFunc [("k", .str "")] "k" ["d"] = "d" ∧
    getvFunc [("k", .intVal 3)] "k" ["d"] = "d" ∧
    getvFunc [] "k" [] = "" := by
  have h := c10_getv_fallback_semantics
  exact ⟨(h _ _ _).1 "val" rfl (by decide), (h _ _ _).2.1 rfl,
    (h _ _ _).2.2.1 _ rfl rfl, (h _ _ _).2.2.2 rfl⟩

/-- C8: extraction is deterministic — for a fixed matcher configuration,
file name and parsed template, any two results of `ExtractVariables`
(respectively `ExtractVariablesWithDefaults`) coincide.  Both walks are pure
functions of their arguments (the embedding is total and reads no other
state, mirroring the Go code, whose extraction path touches no global
mutable state and no map iteration order). -/
theorem c8_extraction_deterministic :
    ∀ (m : FunctionMatcher) (fileName : String) (root : Node)
      (r1 r2 : Except String (List String))
      (d1 d2 : Except String (List VariableInfo)),
      r1 = ExtractVariables m fileName root →
      r2 = ExtractVariables m fileName root →
      d1 = ExtractVariablesWithDefaults m fileName root →
      d2 = ExtractVariablesWithDefaults m fileName root →
      r1 = r2 ∧ d1 = d2 := by
  intro m fileName root r1 r2 d1 d2 h1 h2 h3 h4
  subst h1; subst h2; subst h3; subst h4
  exact ⟨rfl, rfl⟩

/-- Witness for C8 on a concrete template and matcher. -/
theorem c8_witness :
    ExtractVariables NewDefaultFunctionMatcher "t" (.field ["A"])
      = ExtractVariables NewDefaultFunctionMatcher "t" (.field ["A"]) ∧
    ExtractVariablesWithDefaults NewDefaultFunctionMatcher "t" (.field ["A"])
      = ExtractVariablesWithDefaults NewDefaultFunctionMatcher "t" (.field ["A"]) :=
  c8_extraction_deterministic NewDefaultFunctionMatcher "t" (.field ["A"])
    _ _ _ _ rfl rfl rfl rfl

/-- The parse tree of `{{.A}}, {{.A}}` — the same field referenced twice. -/
def dupFieldTemplate : Node :=
  .list [.action (.pipe [.command (.field ["A"]) []]),
         .text ", ",
         .action (.pipe [.command (.field ["A"]) []])]

/-- C5: a field-path node contributes exactly one entry — its identifier path
joined with `"."`, with no default — in both extraction modes, for every
matcher; and a template referencing the same field twice yields two entries
in source order (no deduplication). -/
theorem c5_field_path_entries :
    (∀ (m : FunctionMatcher) (ident : List String) (depth : Nat),
      depth + 1 ≤ maxDepth →
      getFieldFromNode m (.field ident) depth
        = .ok [String.intercalate "." ident] ∧
      getFieldFromNodeWithDefaults m (.field ident) depth
        = .ok [{ name := String.intercalate "." ident, defaultValue := "" }]) ∧
    (∀ (m : FunctionMatcher) (fileName : String),
      ExtractVariables m fileName dupFieldTemplate = .ok ["A", "A"] ∧
      ExtractVariablesWithDefaults m fileName dupFieldTemplate
        = .ok [{ name := "A", defaultValue := "" },
               { name := "A", defaultValue := "" }]) := by
  constructor
  · intro m ident depth h
    have h40 : ¬ depth + 1 > maxDepth := by omega
    constructor
    · simp [getFieldFromNode, h40]
    · simp [getFieldFromNodeWithDefaults, h40]
  · intro m fileName
    constructor
    · simp [ExtractVariables, dupFieldTemplate, getFieldFromNode,
        getFieldFromList, maxDepth]
      rfl
    · simp [ExtractVariablesWithDefaults, dupFieldTemplate,
        getFieldFromNodeWithDefaults, getFieldFromListWithDefaults, maxDepth]
      rfl

/-- Witness for C5 at a nested field path and depth 0. -/
theorem c5_witness :
    getFieldFromNode NewDefaultFunctionMatcher (.field ["User", "Name"]) 0
      = .ok ["User.Name"] ∧
    ExtractVariables NewOfficialFunctionMatcher "t" dupFieldTemplate
      = .ok ["A", "A"] := by
  have h := c5_field_path_entries
  exact ⟨by
    have := (h.1 NewDefaultFunctionMatcher ["User", "Name"] 0 (by decide)).1
    simpa using this,
    (h.2 NewOfficialFunctionMatcher "t").1⟩

/-- The parse tree of `{{if .Active}}{{.Name}}{{else}}{{.Default}}{{end}}`. -/
def ifElseTemplate : Node :=
  .list [.ifNode
    (.pipe [.command (.field ["Active"]) []])
    (.list [.action (.pipe [.command (.field ["Name"]) []])])
    (some (.list [.action (.pipe [.command (.field ["Default"]) []])]))]

/-- C6: `if`, `range` and `with` blocks receive identical handling — guard
pipeline first, then the primary body, then the alternate body when present,
results concatenated in that order — and on
`{{if .Active}}{{.Name}}{{else}}{{.Default}}{{end}}` extraction returns
exactly `["Active", "Name", "Default"]`. -/
theorem c6_block_traversal_order :
    (∀ (m : FunctionMatcher) (p l : Node) (e : Option Node) (d : Nat),
      getFieldFromNode m (.ifNode p l e) d = getFieldFromNode m (.rangeNode p l e) d ∧
      getFieldFromNode m (.ifNode p l e) d = getFieldFromNode m (.withNode p l e) d) ∧
    (∀ (m : FunctionMatcher) (p l el : Node) (d : Nat) (a b c : List String),
      d + 1 ≤ maxDepth →
      getFieldFromNode m p (d + 1) = .ok a →
      getFieldFromNode m l (d + 1) = .ok b →
      getFieldFromNode m el (d + 1) = .ok c →
      getFieldFromNode m (.ifNode p l (some el)) d = .ok (a ++ b ++ c) ∧
      getFieldFromNode m (.ifNode p l none) d = .ok (a ++ b)) ∧
    (∀ (m : FunctionMatcher) (fileName : String),
      ExtractVariables m fileName ifElseTemplate
        = .ok ["Active", "Name", "Default"]) := by
  refine ⟨?_, ?_, ?_⟩
  · intro m p l e d
    constructor <;> simp [getFieldFromNode]
  · intro m p l el d a b c hd ha hb hc
    have h40 : ¬ d + 1 > maxDepth := by omega
    constructor
    · simp [getFieldFromNode, processIfAndWithAndRange, h40, ha, hb, hc]
      rfl
    · simp [getFieldFromNode, processIfAndWithAndRange, h40, ha, hb]
      rfl
  · intro m fileName
    simp [ExtractVariables, ifElseTemplate, getFieldFromNode, getFieldFromList,
      processIfAndWithAndRange, maxDepth]
    rfl

/-- Witness for C6: the guard/body/else concatenation at concrete inputs. -/
theorem c6_witness :
    getFieldFromNode NewOfficialFunctionMatcher
      (.ifNode (.field ["Active"]) (.field ["Name"]) (some (.field ["Default"]))) 0
      = .ok (["Active"] ++ ["Name"] ++ ["Default"]) ∧
    ExtractVariables NewDefaultFunctionMatcher "t" ifElseTemplate
      = .ok ["Active", "Name", "Default"] := by
  have h := c6_block_traversal_order
  refine ⟨?_, h.2.2 NewDefaultFunctionMatcher "t"⟩
  refine (h.2.1 NewOfficialFunctionMatcher (.field ["Active"]) (.field ["Name"])
    (.field ["Default"]) 0 ["Active"] ["Name"] ["Default"] (by decide)
    ?_ ?_ ?_).1 <;>
    (simp [getFieldFromNode, maxDepth]; rfl)

/-- C7: for a call to a recognized function, extraction inspects only the
key-position argument:  with no second argument the call contributes nothing
(both modes); the names result depends only on `args[1]` (later arguments,
field references included, are never reported); the with-defaults result
depends only on `args[1]` and the literal-default position `args[2]`.  The
same holds of the shared helper `extractArgVariable`, which reads only
`args[argIndex]` and yields nothing when that argument is absent. -/
theorem c7_only_key_position_inspected :
    (∀ (m : FunctionMatcher) (f : String) (cycle : Nat),
      MatchCustomFunc m f = true →
      parseCustomFunc m f [] cycle = .ok [] ∧
      parseCustomFuncWithDefaults m f [] cycle = .ok []) ∧
    (∀ (m : FunctionMatcher) (f : String) (cycle : Nat) (item : Node)
      (rest : List Node),
      MatchCustomFunc m f = true →
      parseCustomFunc m f (item :: rest) cycle
        = parseCustomFunc m f [item] cycle) ∧
    (∀ (m : FunctionMatcher) (f : String) (cycle : Nat) (item dflt : Node)
      (rest : List Node),
      MatchCustomFunc m f = true →
      parseCustomFuncWithDefaults m f (item :: dflt :: rest) cycle
        = parseCustomFuncWithDefaults m f [item, dflt] cycle) ∧
    (∀ (reg : FunctionRegistry) (args : List Node) (cycle argIndex : Nat)
      (treat : Bool),
      Reg.extractArgVariable reg args cycle argIndex treat
        = Reg.extractArgVariable reg (args.take (argIndex + 1)) cycle argIndex
            treat ∧
      (args.length ≤ argIndex →
        Reg.extractArgVariable reg args cycle argIndex treat = .ok [])) := by
  refine ⟨?_, ?_, ?_, ?_⟩
  · intro m f cycle h
    exact ⟨by simp [parseCustomFunc, h], by simp [parseCustomFuncWithDefaults, h]⟩
  · intro m f cycle item rest h
    cases item <;> simp [parseCustomFunc, h]
  · intro m f cycle item dflt rest h
    cases item <;> cases dflt <;> simp [parseCustomFuncWithDefaults, h]
  · intro reg args cycle argIndex treat
    constructor
    · have h1 : (args.take (argIndex + 1))[argIndex]? = args[argIndex]? :=
        List.getElem?_take_of_succ
      simp [Reg.extractArgVariable, h1]
    · intro hlen
      have h2 : args[argIndex]? = none := List.getElem?_eq_none_iff.mpr hlen
      simp [Reg.extractArgVariable, h2]

/-- Projecting the names out of a `VariableInfo` list. -/
def namesOf (l : List VariableInfo) : List String :=
  l.map VariableInfo.name

/-- Wrapping names into defaults-free `VariableInfo`s and projecting back is
the identity. -/
lemma namesOf_wrap (x : Except String (List String)) :
    (x.map fun names => names.map fun n => ({ name := n } : VariableInfo)).map
        namesOf = x := by
  cases x with
  | error e => rfl
  | ok l =>
    simp only [Except.map, namesOf, List.map_map]
    exact congrArg Except.ok (List.map_id'' (congrFun rfl) l)

/-- Lemma: `namesOf` commutes with the two-result concatenation pattern of the
walkers. -/
lemma namesOf_bind_append (x y : Except String (List VariableInfo)) :
    ((do
        let a ← x
        let b ← y
        pure (a ++ b) : Except String (List VariableInfo)).map namesOf)
      = (do
          let a ← x.map namesOf
          let b ← y.map namesOf
          pure (a ++ b)) := by
  cases x <;> cases y <;>
    simp [Except.map, namesOf, Bind.bind, Except.bind, Pure.pure, Except.pure]

/-- Lemma: `namesOf` commutes with the three-result concatenation of the block
helper. -/
lemma namesOf_bind_append₃ (x y z : Except String (List VariableInfo)) :
    ((do
        let a ← x
        let b ← y
        let c ← z
        pure (a ++ b ++ c) : Except String (List VariableInfo)).map namesOf)
      = (do
          let a ← x.map namesOf
          let b ← y.map namesOf
          let c ← z.map namesOf
          pure (a ++ b ++ c)) := by
  cases x <;> cases y <;> cases z <;>
    simp [Except.map, namesOf, Bind.bind, Except.bind, Pure.pure, Except.pure]

/-- Names/defaults consistency at a single custom-function call:
`parseCustomFuncWithDefaults` produces exactly the names of
`parseCustomFunc`. -/
lemma namesOf_mk_id (l : List String) :
    l.map (VariableInfo.name ∘ fun n => ({ name := n } : VariableInfo)) = l :=
  List.map_id'' (congrFun rfl) l

lemma namesOf_fmap_wrap (x : Except String (List String)) :
    Except.map namesOf
        ((List.map fun n => ({ name := n } : VariableInfo)) <$> x) = x := by
  cases x with
  | error e => rfl
  | ok l =>
    simp only [Except.map_ok, Except.map, namesOf, List.map_map]
    exact congrArg Except.ok (List.map_id'' (congrFun rfl) l)

/-- Names/defaults consistency at a single custom-function call:
`parseCustomFuncWithDefaults` produces exactly the names of
`parseCustomFunc`. -/
lemma parseCustomFuncWithDefaults_namesOf (m : FunctionMatcher) (f : String)
    (rest : List Node) (cycle : Nat) :
    (parseCustomFuncWithDefaults m f rest cycle).map namesOf
      = parseCustomFunc m f rest cycle := by
  by_cases h : MatchCustomFunc m f
  · cases rest with
    | nil => simp [parseCustomFuncWithDefaults, parseCustomFunc, h, Except.map, namesOf]
    | cons item rest2 =>
      cases item <;>
        first
          | (simp only [parseCustomFuncWithDefaults, parseCustomFunc, h, if_true]
             split <;> rfl)
          | simp [parseCustomFuncWithDefaults, parseCustomFunc, h,
              namesOf_fmap_wrap]
  · rw [parseCustomFuncWithDefaults.eq_def, parseCustomFunc.eq_def]
    simp only [h, Bool.false_eq_true, if_false]
    cases hx : getFieldFromNode m (.identifier f) cycle <;>
      cases hy : getFieldFromList m rest cycle <;>
        simp [hx, hy, Except.map, namesOf, namesOf_mk_id, List.map_map,
          Function.comp, Bind.bind, Except.bind, Pure.pure, Except.pure]

/-- Names/defaults consistency of the full walk: the with-defaults walker's
result, projected to names, is the plain walker's result (errors
included). -/
lemma getFieldFromNodeWithDefaults_namesOf (m : FunctionMatcher) :
    ∀ (node : Node) (depth : Nat),
      (getFieldFromNodeWithDefaults m node depth).map namesOf
        = getFieldFromNode m node depth := by
  intro node depth
  refine getFieldFromNodeWithDefaults.induct m
    (fun node depth =>
      (getFieldFromNodeWithDefaults m node depth).map namesOf
        = getFieldFromNode m node depth)
    (fun pipe list elseList cycle =>
      (processIfAndWithAndRangeWithDefaults m pipe list elseList cycle).map
          namesOf
        = processIfAndWithAndRange m pipe list elseList cycle)
    (fun nodes depth =>
      (getFieldFromListWithDefaults m nodes depth).map namesOf
        = getFieldFromList m nodes depth)
    ?_ ?_ ?_ ?_ ?_ ?_ ?_ ?_ ?_ ?_ ?_ ?_ ?_ ?_ ?_ ?_ ?_ ?_ ?_ ?_ ?_ node depth
  · intro node depth h
    rw [getFieldFromNodeWithDefaults.eq_def, getFieldFromNode.eq_def]
    simp [h, Except.map]
  · intro depth h ident
    simp [getFieldFromNodeWithDefaults, getFieldFromNode, h, Except.map, namesOf]
  · intro depth h rest funcName
    simp [getFieldFromNodeWithDefaults, getFieldFromNode, h,
      parseCustomFuncWithDefaults_namesOf]
  · intro depth h firstWord rest hni ih1 ih3
    cases firstWord <;> try exact absurd rfl (hni _)
    all_goals
      rw [getFieldFromNodeWithDefaults.eq_def, getFieldFromNode.eq_def]
      simp only [dif_neg h]
      rw [namesOf_bind_append, ih1, ih3]
  · intro depth h pipe ih
    simp only [getFieldFromNodeWithDefaults, getFieldFromNode, dif_neg h]
    exact ih
  · intro depth h cmds ih
    simp only [getFieldFromNodeWithDefaults, getFieldFromNode, dif_neg h]
    exact ih
  · intro depth h nodes ih
    simp only [getFieldFromNodeWithDefaults, getFieldFromNode, dif_neg h]
    exact ih
  · intro depth h pipe list elseList ih
    simp only [getFieldFromNodeWithDefaults, getFieldFromNode, dif_neg h]
    exact ih
  · intro depth h pipe list elseList ih
    simp only [getFieldFromNodeWithDefaults, getFieldFromNode, dif_neg h]
    exact ih
  · intro depth h pipe list elseList ih
    simp only [getFieldFromNodeWithDefaults, getFieldFromNode, dif_neg h]
    exact ih
  · intro depth h name
    simp [getFieldFromNodeWithDefaults, getFieldFromNode, h, Except.map, namesOf]
  · intro depth h s
    simp [getFieldFromNodeWithDefaults, getFieldFromNode, h, Except.map, namesOf]
  · intro depth h
    simp [getFieldFromNodeWithDefaults, getFieldFromNode, h, Except.map, namesOf]
  · intro depth h s
    simp [getFieldFromNodeWithDefaults, getFieldFromNode, h, Except.map, namesOf]
  · intro depth h b
    simp [getFieldFromNodeWithDefaults, getFieldFromNode, h, Except.map, namesOf]
  · intro depth h
    simp [getFieldFromNodeWithDefaults, getFieldFromNode, h, Except.map, namesOf]
  · intro depth h text
    simp [getFieldFromNodeWithDefaults, getFieldFromNode, h, Except.map, namesOf]
  · intro depth h ident
    simp [getFieldFromNodeWithDefaults, getFieldFromNode, h, Except.map, namesOf]
  · intro pipe list elseList cycle ih1 ih2 ihel
    rw [processIfAndWithAndRangeWithDefaults, processIfAndWithAndRange]
    cases elseList with
    | none => rw [namesOf_bind_append, ih1, ih2]
    | some el => rw [namesOf_bind_append₃, ih1, ih2, ihel el]
  · intro depth
    simp [getFieldFromListWithDefaults, getFieldFromList, Except.map, namesOf]
  · intro depth item rest ih1 ih3
    rw [getFieldFromListWithDefaults, getFieldFromList]
    rw [namesOf_bind_append, ih1, ih3]

mutual

/-- The nesting depth of a template AST: a node is one level deeper than its
deepest child.  This is the quantity the walker's `depth` counter tracks: the
walker enters a node at the depth of its parent and increments first. -/
def Node.height : Node → Nat
  | .text _ => 1
  | .field _ => 1
  | .identifier _ => 1
  | .str _ => 1
  | .boolLit _ => 1
  | .nilLit => 1
  | .number _ => 1
  | .dot => 1
  | .var _ => 1
  | .command first rest => 1 + max (Node.height first) (heightList rest)
  | .pipe cmds => 1 + heightList cmds
  | .list nodes => 1 + heightList nodes
  | .action pipe => 1 + Node.height pipe
  | .ifNode p l e => 1 + max (Node.height p) (max (Node.height l) (heightOpt e))
  | .rangeNode p l e => 1 + max (Node.height p) (max (Node.height l) (heightOpt e))
  | .withNode p l e => 1 + max (Node.height p) (max (Node.height l) (heightOpt e))

/-- Maximal height among sibling nodes. -/
def heightList : List Node → Nat
  | [] => 0
  | n :: ns => max (Node.height n) (heightList ns)

/-- Height of an optional (possibly nil) node. -/
def heightOpt : Option Node → Nat
  | none => 0
  | some n => Node.height n

end

lemma one_le_height (n : Node) : 1 ≤ Node.height n := by
  cases n <;> simp [Node.height]

/-- An error of the two-result concatenation pattern comes from one of the
two sub-walks. -/
lemma bind_append_error {α : Type} {x y : Except String (List α)} {e : String}
    (hx : ∀ e1, x = .error e1 → e1 = tooDeepMsg)
    (hy : ∀ e1, y = .error e1 → e1 = tooDeepMsg) :
    (do
      let a ← x
      let b ← y
      pure (a ++ b) : Except String (List α)) = .error e → e = tooDeepMsg := by
  cases x with
  | error e1 =>
    intro hh
    cases hh
    exact hx _ rfl
  | ok a =>
    cases y with
    | error e1 =>
      intro hh
      cases hh
      exact hy _ rfl
    | ok b =>
      intro hh
      cases hh

/-- An error of the three-result concatenation pattern comes from one of the
three sub-walks. -/
lemma bind_append_error₃ {α : Type} {x y z : Except String (List α)}
    {e : String}
    (hx : ∀ e1, x = .error e1 → e1 = tooDeepMsg)
    (hy : ∀ e1, y = .error e1 → e1 = tooDeepMsg)
    (hz : ∀ e1, z = .error e1 → e1 = tooDeepMsg) :
    (do
      let a ← x
      let b ← y
      let c ← z
      pure (a ++ b ++ c) : Except String (List α)) = .error e →
      e = tooDeepMsg := by
  cases x with
  | error e1 =>
    intro hh
    cases hh
    exact hx _ rfl
  | ok a =>
    cases y with
    | error e1 =>
      intro hh
      cases hh
      exact hy _ rfl
    | ok b =>
      cases z with
      | error e1 =>
        intro hh
        cases hh
        exact hz _ rfl
      | ok c =>
        intro hh
        cases hh

/-- The only error the names walk ever produces is the
excessive-nesting message. -/
lemma getFieldFromNode_error_eq (m : FunctionMatcher) :
    ∀ (node : Node) (depth : Nat) (e : String),
      getFieldFromNode m node depth = .error e → e = tooDeepMsg := by
  intro node depth
  refine getFieldFromNode.induct m
    (fun node depth => ∀ e, getFieldFromNode m node depth = .error e →
      e = tooDeepMsg)
    (fun pipe list elseList cycle => ∀ e,
      processIfAndWithAndRange m pipe list elseList cycle = .error e →
      e = tooDeepMsg)
    (fun nodes depth => ∀ e, getFieldFromList m nodes depth = .error e →
      e = tooDeepMsg)
    (fun funcName rest cycle => ∀ e,
      parseCustomFunc m funcName rest cycle = .error e → e = tooDeepMsg)
    ?_ ?_ ?_ ?_ ?_ ?_ ?_ ?_ ?_ ?_ ?_ ?_ ?_ ?_ ?_ ?_ ?_ ?_ ?_ ?_ ?_ ?_ ?_ ?_ ?_
    node depth
  · intro node depth h e
    rw [getFieldFromNode.eq_def]
    simp [h]
    intro hh
    exact hh.symm
  · intro depth h ident e
    simp [getFieldFromNode, h]
  · intro depth h rest funcName ih e
    simp only [getFieldFromNode, dif_neg h]
    exact ih e
  · intro depth h firstWord rest hni ih1 ih3 e
    cases firstWord <;> try exact absurd rfl (hni _)
    all_goals
      rw [getFieldFromNode.eq_def]
      simp only [dif_neg h]
      exact bind_append_error ih1 ih3
  · intro depth h pipe ih e
    simp only [getFieldFromNode, dif_neg h]
    exact ih e
  · intro depth h cmds ih e
    simp only [getFieldFromNode, dif_neg h]
    exact ih e
  · intro depth h nodes ih e
    simp only [getFieldFromNode, dif_neg h]
    exact ih e
  · intro depth h pipe list elseList ih e
    simp only [getFieldFromNode, dif_neg h]
    exact ih e
  · intro depth h pipe list elseList ih e
    simp only [getFieldFromNode, dif_neg h]
    exact ih e
  · intro depth h pipe list elseList ih e
    simp only [getFieldFromNode, dif_neg h]
    exact ih e
  · intro depth h name e
    simp [getFieldFromNode, h]
  · intro depth h s e
    simp [getFieldFromNode, h]
  · intro depth h e
    simp [getFieldFromNode, h]
  · intro depth h s e
    simp [getFieldFromNode, h]
  · intro depth h b e
    simp [getFieldFromNode, h]
  · intro depth h e
    simp [getFieldFromNode, h]
  · intro depth h text e
    simp [getFieldFromNode, h]
  · intro depth h ident e
    simp [getFieldFromNode, h]
  · intro pipe list elseList cycle ih1 ih2 ihel e
    rw [processIfAndWithAndRange.eq_def]
    cases elseList with
    | none => exact bind_append_error ih1 ih2
    | some el =>
      have h3 := ihel el
      intro hh
      revert hh
      exact bind_append_error₃ ih1 ih2 h3
  · intro depth e
    simp [getFieldFromList]
  · intro depth item rest ih1 ih3 e
    rw [getFieldFromList.eq_def]
    exact bind_append_error ih1 ih3
  · intro funcName cycle h e
    simp [parseCustomFunc, h]
  · intro funcName cycle h rest s e
    simp [parseCustomFunc, h]
  · intro funcName cycle h item rest hns ih e
    rw [parseCustomFunc.eq_def]
    simp only [h, if_true]
    cases item <;> try exact absurd rfl (hns _)
    all_goals exact ih e
  · intro funcName rest cycle h ih1 ih3 e
    rw [parseCustomFunc.eq_def]
    simp only [h, Bool.false_eq_true, if_false]
    exact bind_append_error ih1 ih3

/-- A walk entered at a depth whose remaining headroom covers the node's
height succeeds. -/
lemma getFieldFromNode_ok_of_height (m : FunctionMatcher) :
    ∀ (node : Node) (depth : Nat),
      depth + Node.height node ≤ maxDepth →
      ∃ r, getFieldFromNode m node depth = .ok r := by
  intro node depth
  refine getFieldFromNode.induct m
    (fun node depth => depth + Node.height node ≤ maxDepth →
      ∃ r, getFieldFromNode m node depth = .ok r)
    (fun pipe list elseList cycle =>
      cycle + max (Node.height pipe) (max (Node.height list) (heightOpt elseList))
          ≤ maxDepth →
      ∃ r, processIfAndWithAndRange m pipe list elseList cycle = .ok r)
    (fun nodes depth => depth + heightList nodes ≤ maxDepth →
      ∃ r, getFieldFromList m nodes depth = .ok r)
    (fun funcName rest cycle =>
      cycle + max 1 (heightList rest) ≤ maxDepth →
      ∃ r, parseCustomFunc m funcName rest cycle = .ok r)
    ?_ ?_ ?_ ?_ ?_ ?_ ?_ ?_ ?_ ?_ ?_ ?_ ?_ ?_ ?_ ?_ ?_ ?_ ?_ ?_ ?_ ?_ ?_ ?_ ?_
    node depth
  · intro node depth h hh
    have := one_le_height node
    omega
  · intro depth h ident hh
    exact ⟨[String.intercalate "." ident], by simp [getFieldFromNode, h]⟩
  · intro depth h rest funcName ih hh
    simp only [Node.height] at hh
    simp only [getFieldFromNode, dif_neg h]
    exact ih (by omega)
  · intro depth h firstWord rest hni ih1 ih3 hh
    simp only [Node.height] at hh
    obtain ⟨a, ha⟩ := ih1 (by
      have := Nat.le_max_left (Node.height firstWord) (heightList rest)
      omega)
    obtain ⟨b, hb⟩ := ih3 (by
      have := Nat.le_max_right (Node.height firstWord) (heightList rest)
      omega)
    cases firstWord <;> try exact absurd rfl (hni _)
    all_goals
      refine ⟨a ++ b, ?_⟩
      rw [getFieldFromNode.eq_def]
      simp [dif_neg h, ha, hb, Bind.bind, Except.bind, Pure.pure, Except.pure]
  · intro depth h pipe ih hh
    simp only [Node.height] at hh
    simp only [getFieldFromNode, dif_neg h]
    exact ih (by omega)
  · intro depth h cmds ih hh
    simp only [Node.height] at hh
    simp only [getFieldFromNode, dif_neg h]
    exact ih (by omega)
  · intro depth h nodes ih hh
    simp only [Node.height] at hh
    simp only [getFieldFromNode, dif_neg h]
    exact ih (by omega)
  · intro depth h pipe list elseList ih hh
    simp only [Node.height] at hh
    simp only [getFieldFromNode, dif_neg h]
    exact ih (by omega)
  · intro depth h pipe list elseList ih hh
    simp only [Node.height] at hh
    simp only [getFieldFromNode, dif_neg h]
    exact ih (by omega)
  · intro depth h pipe list elseList ih hh
    simp only [Node.height] at hh
    simp only [getFieldFromNode, dif_neg h]
    exact ih (by omega)
  · intro depth h name hh
    exact ⟨[], by simp [getFieldFromNode, h]⟩
  · intro depth h s hh
    exact ⟨[], by simp [getFieldFromNode, h]⟩
  · intro depth h hh
    exact ⟨[], by simp [getFieldFromNode, h]⟩
  · intro depth h s hh
    exact ⟨[], by simp [getFieldFromNode, h]⟩
  · intro depth h b hh
    exact ⟨[], by simp [getFieldFromNode, h]⟩
  · intro depth h hh
    exact ⟨[], by simp [getFieldFromNode, h]⟩
  · intro depth h text hh
    exact ⟨[], by simp [getFieldFromNode, h]⟩
  · intro depth h ident hh
    exact ⟨[], by simp [getFieldFromNode, h]⟩
  · intro pipe list elseList cycle ih1 ih2 ihel hh
    have hp := Nat.le_max_left (Node.height pipe)
      (max (Node.height list) (heightOpt elseList))
    have hl1 := Nat.le_max_right (Node.height pipe)
      (max (Node.height list) (heightOpt elseList))
    have hl2 := Nat.le_max_left (Node.height list) (heightOpt elseList)
    have hl3 := Nat.le_max_right (Node.height list) (heightOpt elseList)
    obtain ⟨a, ha⟩ := ih1 (by omega)
    obtain ⟨b, hb⟩ := ih2 (by omega)
    cases elseList with
    | none =>
      refine ⟨a ++ b, ?_⟩
      rw [processIfAndWithAndRange.eq_def]
      simp [ha, hb, Bind.bind, Except.bind, Pure.pure, Except.pure]
    | some el =>
      simp only [heightOpt] at hl3 hh
      obtain ⟨c, hc⟩ := ihel el (by omega)
      refine ⟨a ++ b ++ c, ?_⟩
      rw [processIfAndWithAndRange.eq_def]
      simp [ha, hb, hc, Bind.bind, Except.bind, Pure.pure, Except.pure]
  · intro depth hh
    exact ⟨[], by simp [getFieldFromList]⟩
  · intro depth item rest ih1 ih3 hh
    simp only [heightList] at hh
    have h1 := Nat.le_max_left (Node.height item) (heightList rest)
    have h2 := Nat.le_max_right (Node.height item) (heightList rest)
    obtain ⟨a, ha⟩ := ih1 (by omega)
    obtain ⟨b, hb⟩ := ih3 (by omega)
    refine ⟨a ++ b, ?_⟩
    rw [getFieldFromList.eq_def]
    simp [ha, hb, Bind.bind, Except.bind, Pure.pure, Except.pure]
  · intro funcName cycle h hh
    exact ⟨[], by simp [parseCustomFunc, h]⟩
  · intro funcName cycle h rest s hh
    exact ⟨[s], by simp [parseCustomFunc, h]⟩
  · intro funcName cycle h item rest hns ih hh
    simp only [heightList] at hh
    have h1 := Nat.le_max_left (Node.height item) (heightList rest)
    have h2 := Nat.le_max_right 1 (max (Node.height item) (heightList rest))
    obtain ⟨a, ha⟩ := ih (by omega)
    rw [parseCustomFunc.eq_def]
    simp only [h, if_true]
    cases item <;> try exact absurd rfl (hns _)
    all_goals exact ⟨a, ha⟩
  · intro funcName rest cycle h ih1 ih3 hh
    have h1 := Nat.le_max_left 1 (heightList rest)
    have h2 := Nat.le_max_right 1 (heightList rest)
    obtain ⟨a, ha⟩ := ih1 (by simp [Node.height]; omega)
    obtain ⟨b, hb⟩ := ih3 (by omega)
    refine ⟨a ++ b, ?_⟩
    rw [parseCustomFunc.eq_def]
    simp [h, ha, hb, Bind.bind, Except.bind, Pure.pure, Except.pure]

/-- A chain of nested block lists ending in a field reference:
`nestedList n` is nested `n + 1` levels deep. -/
def nestedList : Nat → Node
  | 0 => .field ["A"]
  | n + 1 => .list [nestedList n]

lemma height_nestedList (n : Nat) : Node.height (nestedList n) = n + 1 := by
  induction n with
  | zero => simp [nestedList, Node.height]
  | succ n ih =>
    simp [nestedList, Node.height, heightList, ih]
    omega

lemma nestedList_ok (m : FunctionMatcher) :
    ∀ (n d : Nat), d + (n + 1) ≤ maxDepth →
      getFieldFromNode m (nestedList n) d = .ok ["A"] := by
  intro n
  induction n with
  | zero =>
    intro d hd
    have h : ¬ d + 1 > maxDepth := by omega
    rw [getFieldFromNode.eq_def]
    simp only [nestedList, dif_neg h]
    rfl
  | succ n ih =>
    intro d hd
    have h : ¬ d + 1 > maxDepth := by omega
    have hrec := ih (d + 1) (by omega)
    rw [show nestedList (n + 1) = .list [nestedList n] from rfl]
    rw [getFieldFromNode.eq_def]
    simp only [dif_neg h]
    rw [getFieldFromList.eq_def]
    simp [hrec, getFieldFromList, Bind.bind, Except.bind, Pure.pure, Except.pure]

lemma nestedList_error (m : FunctionMatcher) :
    ∀ (n d : Nat), maxDepth < d + (n + 1) →
      getFieldFromNode m (nestedList n) d = .error tooDeepMsg := by
  intro n
  induction n with
  | zero =>
    intro d hd
    have h : d + 1 > maxDepth := by omega
    rw [getFieldFromNode.eq_def]
    simp only [nestedList, dif_pos h]
  | succ n ih =>
    intro d hd
    by_cases h : d + 1 > maxDepth
    · rw [getFieldFromNode.eq_def]
      simp only [dif_pos h]
    · have hrec := ih (d + 1) (by omega)
      rw [show nestedList (n + 1) = .list [nestedList n] from rfl]
      rw [getFieldFromNode.eq_def]
      simp only [dif_neg h]
      rw [getFieldFromList.eq_def]
      simp [hrec, Bind.bind, Except.bind]

/-- A deeply nested parenthesized pipeline, as produced for
`(print (print (print …)))`. -/
def deepSkippedArg : Nat → Node
  | 0 => .str "x"
  | n + 1 => .pipe [.command (.identifier "print") [deepSkippedArg n]]

/-- The parse tree of `{{getv "k" (print (print …))}}` with the nested
pipeline in the third argument position — the position the extractor skips
once the literal key `"k"` has been taken. -/
def deepSkippedTemplate : Node :=
  .list [.action (.pipe [.command (.identifier "getv")
    [.str "k", deepSkippedArg 25]])]

lemma height_deepSkippedArg : ∀ n, Node.height (deepSkippedArg n) = 2 * n + 1 := by
  intro n
  induction n with
  | zero => simp [deepSkippedArg, Node.height]
  | succ n ih =>
    simp [deepSkippedArg, Node.height, heightList, ih]
    omega

/-- C4 counterexample: a template whose AST is nested more than 40 levels
deep on which extraction nevertheless succeeds — the deep nesting sits in
the third argument of a recognized `getv` call, which the walker never
visits once it has taken the literal key, so the claim "41 or more levels
deep returns the ExcessiveNestingError" is false as stated. -/
theorem c4_counterexample :
    41 ≤ Node.height deepSkippedTemplate ∧
    ExtractVariables NewDefaultFunctionMatcher "t" deepSkippedTemplate
      = .ok ["k"] := by
  constructor
  · have h := height_deepSkippedArg 25
    simp [deepSkippedTemplate, Node.height, heightList, h]
  · have hm : MatchCustomFunc NewDefaultFunctionMatcher "getv" = true := by
      simp [MatchCustomFunc, NewDefaultFunctionMatcher]
      decide
    simp [ExtractVariables, deepSkippedTemplate, getFieldFromNode,
      getFieldFromList, parseCustomFunc, hm, maxDepth]
    rfl

/-- C4 (amended): the walk is bounded by the walked depth, not the syntactic
height: extraction succeeds on every template whose AST height is at most
40 — in particular on a fully walked chain nested exactly 40 deep — and a
fully walked chain nested 41 deep fails; the excessive-nesting message is
the only error either extraction mode ever produces (upstream parse failure
excluded, being the external parser's).  Nesting hidden in argument
positions the extractor skips does not count (see the counterexample). -/
theorem c4_depth_ceiling :
    (∀ (m : FunctionMatcher) (node : Node) (depth : Nat),
      depth + Node.height node ≤ maxDepth →
      ∃ r, getFieldFromNode m node depth = .ok r) ∧
    (∀ (m : FunctionMatcher) (node : Node) (depth : Nat) (e : String),
      getFieldFromNode m node depth = .error e → e = tooDeepMsg) ∧
    (∀ (m : FunctionMatcher) (fileName : String) (root : Node) (e : String),
      ExtractVariables m fileName root = .error e →
      e = wrapParseError fileName tooDeepMsg) ∧
    (∀ (m : FunctionMatcher) (fileName : String) (root : Node) (e : String),
      ExtractVariablesWithDefaults m fileName root = .error e →
      e = wrapParseError fileName tooDeepMsg) ∧
    (∀ (m : FunctionMatcher) (fileName : String),
      ExtractVariables m fileName (nestedList 39) = .ok ["A"]) ∧
    (∀ (m : FunctionMatcher) (fileName : String),
      ExtractVariables m fileName (nestedList 40)
        = .error (wrapParseError fileName tooDeepMsg)) := by
  refine ⟨getFieldFromNode_ok_of_height, getFieldFromNode_error_eq, ?_, ?_, ?_, ?_⟩
  · intro m fileName root e h
    unfold ExtractVariables at h
    cases hw : getFieldFromNode m root 0 with
    | error e1 =>
      rw [hw] at h
      cases h
      rw [getFieldFromNode_error_eq m root 0 e1 hw]
    | ok r =>
      rw [hw] at h
      cases h
  · intro m fileName root e h
    unfold ExtractVariablesWithDefaults at h
    cases hw : getFieldFromNodeWithDefaults m root 0 with
    | error e1 =>
      rw [hw] at h
      cases h
      have hp := getFieldFromNodeWithDefaults_namesOf m root 0
      rw [hw] at hp
      rw [getFieldFromNode_error_eq m root 0 e1 (by rw [← hp]; rfl)]
    | ok r =>
      rw [hw] at h
      cases h
  · intro m fileName
    unfold ExtractVariables
    rw [nestedList_ok m 39 0 (by simp [maxDepth])]
  · intro m fileName
    unfold ExtractVariables
    rw [nestedList_error m 40 0 (by simp [maxDepth])]

/-- Witness for C4 at concrete inputs: a height-1 node at depth 0 succeeds,
and the 41-deep fully walked chain fails with the wrapped nesting error. -/
theorem c4_witness :
    (∃ r, getFieldFromNode NewDefaultFunctionMatcher Node.dot 0 = .ok r) ∧
    ExtractVariables NewOfficialFunctionMatcher "f" (nestedList 40)
      = .error (wrapParseError "f" tooDeepMsg) := by
  have h := c4_depth_ceiling
  refine ⟨h.1 NewDefaultFunctionMatcher Node.dot 0 ?_, h.2.2.2.2.2 _ "f"⟩
  simp [Node.height, maxDepth]

/-- C2: for every matcher configuration and every parsed template, the name
sequence of `ExtractVariablesWithDefaults` equals, element for element and
in order, the result of `ExtractVariables` (and the two fail together, with
the same message). -/
theorem c2_names_defaults_consistency :
    ∀ (m : FunctionMatcher) (fileName : String) (root : Node),
      (ExtractVariablesWithDefaults m fileName root).map namesOf
        = ExtractVariables m fileName root := by
  intro m fileName root
  have h := getFieldFromNodeWithDefaults_namesOf m root 0
  unfold ExtractVariables ExtractVariablesWithDefaults
  cases hw : getFieldFromNodeWithDefaults m root 0 with
  | error e =>
    rw [hw] at h
    rw [← h]
    simp [Except.map]
  | ok l =>
    rw [hw] at h
    rw [← h]
    simp [Except.map]

/-- The parse tree of a single-action template `{{f "s"}}`. -/
def callWithLiteral (f s : String) : Node :=
  .list [.action (.pipe [.command (.identifier f) [.str s]])]

/-- The parse tree of a single-action template `{{f .path}}`. -/
def callWithField (f : String) (path : List String) : Node :=
  .list [.action (.pipe [.command (.identifier f) [.field path]])]

/-- C1: in every registry configuration that registers a function with the
transform-style rule (`extractFirstArgVariable` /
`extractFirstArgVariableInfo`, i.e. `extractArgVariable` with
`treatStringLiteralsAsVarNames = false`, as `base`, `toUpper`, … are
registered), extraction from a template calling it on a literal string
yields no dependency — the literal is data — while calling it on a field
reference yields exactly one dependency, the field's dotted path. -/
theorem c1_transform_literal_vs_field :
    ∀ (reg : FunctionRegistry) (f : String) (d : FunctionDefinition)
      (s fileName : String) (path : List String),
      reg.GetFunction f = some d →
      d.extractor = .argVariable 1 false →
      d.extractorWithDefaults = .argVariable 1 (-1) false →
      Reg.ExtractVariables reg fileName (callWithLiteral f s) = .ok [] ∧
      Reg.ExtractVariablesWithDefaults reg fileName (callWithLiteral f s)
        = .ok [] ∧
      Reg.ExtractVariables reg fileName (callWithField f path)
        = .ok [String.intercalate "." path] ∧
      Reg.ExtractVariablesWithDefaults reg fileName (callWithField f path)
        = .ok [{ name := String.intercalate "." path, defaultValue := "" }] := by
  intro reg f d s fileName path hreg hex hexd
  refine ⟨?_, ?_, ?_, ?_⟩
  · simp [Reg.ExtractVariables, callWithLiteral, Reg.getFieldFromNode,
      Reg.getFieldFromList, Reg.parseCustomFunc, hreg, hex,
      Reg.extractArgVariable, maxDepth]
    rfl
  · simp [Reg.ExtractVariablesWithDefaults, callWithLiteral,
      Reg.getFieldFromNodeWithDefaults, Reg.getFieldFromListWithDefaults,
      Reg.parseCustomFuncWithDefaults, hreg, hexd,
      Reg.extractArgVariableWithDefaults, maxDepth]
    rfl
  · simp [Reg.ExtractVariables, callWithField, Reg.getFieldFromNode,
      Reg.getFieldFromList, Reg.parseCustomFunc, hreg, hex,
      Reg.extractArgVariable, maxDepth]
    rfl
  · simp [Reg.ExtractVariablesWithDefaults, callWithField,
      Reg.getFieldFromNodeWithDefaults, Reg.getFieldFromListWithDefaults,
      Reg.parseCustomFuncWithDefaults, hreg, hexd,
      Reg.extractArgVariableWithDefaults, Reg.getFieldFromNode, maxDepth]
    rfl

/-- Witness for C1: `base` in the confd registry, on
`{{base "/home/user/file.txt"}}` and `{{base .filepath}}`. -/
theorem c1_witness :
    Reg.ExtractVariables confdRegistry "t"
      (callWithLiteral "base" "/home/user/file.txt") = .ok [] ∧
    Reg.ExtractVariables confdRegistry "t" (callWithField "base" ["filepath"])
      = .ok ["filepath"] := by
  have h := c1_transform_literal_vs_field confdRegistry "base"
    (firstArgDefinition "base") "/home/user/file.txt" "t" ["filepath"]
    (by rfl) (by rfl) (by rfl)
  exact ⟨h.1, by simpa using h.2.2.1⟩

/-- C3: for a recognized function whose registered with-defaults rule
designates no default position (`defaultArgIndex = -1`, as registered for
`exists`, `get`, `json`, `jsonArray`, or the no-variables rule), every entry
the with-defaults extraction produces for that call has an empty
`DefaultValue` — even when a literal string sits in the third argument
position. -/
theorem c3_no_default_leakage :
    (∀ (reg : FunctionRegistry) (f : String) (d : FunctionDefinition)
      (args : List Node) (cycle : Nat) (res : List VariableInfo),
      reg.GetFunction f = some d →
      (∀ i dIdx t, d.extractorWithDefaults = .argVariable i dIdx t → dIdx ≤ 0) →
      Reg.parseCustomFuncWithDefaults reg f args cycle = .ok res →
      ∀ v ∈ res, v.defaultValue = "") ∧
    (∀ (reg : FunctionRegistry) (f : String) (d : FunctionDefinition)
      (s dv fileName : String),
      reg.GetFunction f = some d →
      d.extractorWithDefaults = .argVariable 1 (-1) true →
      Reg.ExtractVariablesWithDefaults reg fileName
        (.list [.action (.pipe [.command (.identifier f) [.str s, .str dv]])])
        = .ok [{ name := s, defaultValue := "" }]) := by
  constructor
  · intro reg f d args cycle res hreg hrule hres v hv
    cases hd : d.extractorWithDefaults with
    | noVariables =>
      simp only [Reg.parseCustomFuncWithDefaults, hreg, hd] at hres
      cases hres
      cases hv
    | argVariable i dIdx t =>
      have hle : dIdx ≤ 0 := hrule i dIdx t hd
      have hnp : ¬ dIdx > 0 := by omega
      cases hitem : args[i]? with
      | none =>
        simp only [Reg.parseCustomFuncWithDefaults, hreg, hd,
          Reg.extractArgVariableWithDefaults, hitem] at hres
        cases hres
        cases hv
      | some item =>
        cases item with
        | str s =>
          cases t with
          | true =>
            simp only [Reg.parseCustomFuncWithDefaults, hreg, hd,
              Reg.extractArgVariableWithDefaults, hitem, if_true,
              if_neg hnp] at hres
            cases hres
            simp at hv
            subst hv
            rfl
          | false =>
            simp only [Reg.parseCustomFuncWithDefaults, hreg, hd,
              Reg.extractArgVariableWithDefaults, hitem, Bool.false_eq_true,
              if_false] at hres
            cases hres
            cases hv
        | _ =>
          all_goals (
            simp only [Reg.parseCustomFuncWithDefaults, hreg, hd,
              Reg.extractArgVariableWithDefaults, hitem, Bind.bind,
              Except.bind] at hres
            split at hres
            · cases hres
            · cases hres
              obtain ⟨n, hn, hv2⟩ := List.mem_map.mp hv
              subst hv2
              rfl)
  · intro reg f d s dv fileName hreg hrule
    simp [Reg.ExtractVariablesWithDefaults,
      Reg.getFieldFromNodeWithDefaults, Reg.getFieldFromListWithDefaults,
      Reg.parseCustomFuncWithDefaults, hreg, hrule,
      Reg.extractArgVariableWithDefaults, maxDepth]
    rfl

/-- Witness for C3: `exists` in the custom registry, called with a literal
string in the third argument position. -/
theorem c3_witness :
    Reg.ExtractVariablesWithDefaults customRegistry "t"
      (.list [.action (.pipe [.command (.identifier "exists")
        [.str "username", .str "fallback"]])])
      = .ok [{ name := "username", defaultValue := "" }] :=
  c3_no_default_leakage.2 customRegistry "exists" (keyArgDefinition "exists")
    "username" "fallback" "t" (by rfl) (by rfl)

/-- Witness for C7: a recognized call with a field reference in a later
argument reports nothing from it. -/
theorem c7_witness :
    parseCustomFunc NewDefaultFunctionMatcher "getv" [] 1 = .ok [] ∧
    parseCustomFunc NewDefaultFunctionMatcher "getv"
      [.str "k", .field ["Hidden"]] 1
      = parseCustomFunc NewDefaultFunctionMatcher "getv" [.str "k"] 1 ∧
    Reg.extractArgVariable confdRegistry [.identifier "base"] 1 1 false
      = .ok [] := by
  have h := c7_only_key_position_inspected
  refine ⟨(h.1 _ _ 1 (by decide)).1, h.2.1 _ _ 1 _ _ (by decide), ?_⟩
  exact (h.2.2.2 confdRegistry [.identifier "base"] 1 1 false).2 (by decide)

end Plify
